import Mathlib

/-
  Verification of the Hashira polynomial-reconstruction repository.

  The development shallowly embeds the two non-trivial source components:
  * src/polynomialSolver.js : multiplyPolynomials, buildPolynomial,
    evaluatePolynomial, verifyRoots. JS numbers are IEEE-754 doubles, so
    every `+` and `*` of the source is modelled as the exact integer
    operation followed by rounding to the nearest double (`jsAdd`,
    `jsMul`); coefficient arrays become `List Int` of integer-valued
    doubles, and the JS `new Array(-1)` failure becomes `Option`.
  * src/baseConversion.js : convertToDecimal, built on JS `parseInt`
    semantics (leading-whitespace trim, optional sign, optional 0x for
    radix 16, longest valid digit prefix) followed by the same rounding
    of the mathematical integer to the nearest double, since `parseInt`
    returns a JS number.
-/

namespace Hashira

/-! ## Base conversion component (src/baseConversion.js) -/

/-- Whitespace characters skipped by JS `parseInt` before parsing: the
ECMA WhiteSpace set (tab, VT, FF, space, NBSP, ZWNBSP/BOM, and the
Unicode Zs space separators U+1680, U+2000..U+200A, U+202F, U+205F,
U+3000) together with the LineTerminator set (LF, CR, LS U+2028,
PS U+2029). -/
def isJsWhitespace (c : Char) : Bool :=
  c == ' ' || c == Char.ofNat 9 || c == Char.ofNat 10 || c == Char.ofNat 11 ||
  c == Char.ofNat 12 || c == Char.ofNat 13 || c == Char.ofNat 160 ||
  c == Char.ofNat 5760 ||
  (Char.ofNat 8192 ≤ c && c ≤ Char.ofNat 8202) ||
  c == Char.ofNat 8232 || c == Char.ofNat 8233 ||
  c == Char.ofNat 8239 || c == Char.ofNat 8287 ||
  c == Char.ofNat 12288 || c == Char.ofNat 65279

/-- Numeric value of a digit character, case-insensitive. JS `parseInt`
accepts letters up to z for large radixes, but for the radixes 2..16
reachable in `convertToDecimal` only 0-9 and a-f/A-F can ever be valid,
so letters past f are mapped to `none` like any other non-digit. -/
def digitVal (c : Char) : Option Nat :=
  if '0' ≤ c ∧ c ≤ '9' then some (c.toNat - '0'.toNat)
  else if 'a' ≤ c ∧ c ≤ 'f' then some (c.toNat - 'a'.toNat + 10)
  else if 'A' ≤ c ∧ c ≤ 'F' then some (c.toNat - 'A'.toNat + 10)
  else none

/-- Is `c` a legal digit for the given radix? -/
def isRadixDigit (radix : Int) (c : Char) : Bool :=
  match digitVal c with
  | some d => decide ((d : Int) < radix)
  | none => false

/-- Optional sign handling of JS `parseInt`: a leading `-` negates,
a leading `+` is skipped. Returns the sign and the remaining characters. -/
def splitSign (s : List Char) : Int × List Char :=
  match s with
  | '-' :: rest => (-1, rest)
  | '+' :: rest => (1, rest)
  | _ => (1, s)

/-- JS `parseInt` strips a leading `0x`/`0X` when the radix is 16. -/
def strip0x (radix : Int) (s : List Char) : List Char :=
  if radix = 16 then
    match s with
    | '0' :: 'x' :: rest => rest
    | '0' :: 'X' :: rest => rest
    | _ => s
  else s

/-- Exact value of a digit string in the given base (most significant
digit first), the mathematical integer JS `parseInt` denotes before
rounding to a double. -/
def digitsToNat (base : Nat) (ds : List Char) : Nat :=
  ds.foldl (fun acc c => acc * base + (digitVal c).getD 0) 0

/-- Number of binary digits of `n`, computed with explicit fuel so that it
reduces definitionally; 1100 units of fuel cover every value below
2^1100, far beyond the double overflow threshold 2^1024. -/
def bitLenAux : Nat → Nat → Nat
  | 0, _ => 0
  | fuel + 1, n => if n = 0 then 0 else bitLenAux fuel (n / 2) + 1

/-- Number of binary digits of `n` (0 for 0). -/
def bitLen (n : Nat) : Nat := bitLenAux 1100 n

/-- Rounds an integer to the nearest IEEE-754 binary64 value
(round-to-nearest, ties-to-even), expressed as an integer. Every JS
number operation on integer-valued doubles produces an integer rounded
this way. Faithful for |m| < 2^1024; larger magnitudes overflow to
Infinity in JS and are outside the scope of this model. -/
def roundToDouble (m : Int) : Int :=
  let n := m.natAbs
  let r :=
    if n ≤ 2 ^ 53 then n
    else
      let k := bitLen n - 53
      let s := 2 ^ k
      let q := n / s
      let rem := n % s
      if rem * 2 < s then q * s
      else if rem * 2 > s then (q + 1) * s
      else (if q % 2 = 0 then q else q + 1) * s
  if m < 0 then -(r : Int) else (r : Int)

/-- JS number addition on integer-valued doubles: the exact sum rounded
to the nearest double. -/
def jsAdd (a b : Int) : Int := roundToDouble (a + b)

/-- JS number multiplication on integer-valued doubles: the exact product
rounded to the nearest double. -/
def jsMul (a b : Int) : Int := roundToDouble (a * b)

/-- JS `parseInt(string, radix)` for an in-range radix: trim leading
whitespace, take an optional sign, strip `0x` for radix 16, then read the
longest prefix of valid digits; `none` models the NaN result when that
prefix is empty. The returned value is the exact mathematical integer
(rounding to double happens at the caller). -/
def jsParseInt (s : List Char) (radix : Int) : Option Int :=
  let t := splitSign (s.dropWhile isJsWhitespace)
  let ds := (strip0x radix t.2).takeWhile (isRadixDigit radix)
  if ds.isEmpty then none else some (t.1 * (digitsToNat radix.toNat ds : Int))

/-- Error taxonomy of `convertToDecimal`: the `Base ... is not supported`
throw is `invalidBase`; both the `Value must be a non-empty string` and
the `Invalid value` (NaN) throws are `invalidDigitString`. -/
inductive ConvError where
  | invalidBase : ConvError
  | invalidDigitString : ConvError
deriving DecidableEq

/-- Function `convertToDecimal(value, base)` from src/baseConversion.js:
reject a base outside [2,16], reject an empty value, then
`parseInt(value, base)`, rejecting a NaN result and otherwise returning
the parsed number (the mathematical integer rounded to the nearest
double). -/
def convertToDecimal (value : String) (base : Int) : Except ConvError Int :=
  if base < 2 ∨ 16 < base then .error .invalidBase
  else if value.data.isEmpty then .error .invalidDigitString
  else
    match jsParseInt value.data base with
    | none => .error .invalidDigitString
    | some m => .ok (roundToDouble m)

/-- Does the value have no leading digit once `parseInt`'s front end
(whitespace trim, optional sign, optional 0x for radix 16) has run? This
is exactly the condition under which `parseInt` yields NaN. -/
def noLeadingDigit (radix : Int) (s : List Char) : Bool :=
  match strip0x radix (splitSign (s.dropWhile isJsWhitespace)).2 with
  | [] => true
  | c :: _ => !(isRadixDigit radix c)

/-! ## Polynomial solver component (src/polynomialSolver.js) -/

/-- The loop body of `multiplyPolynomials`: start from
`new Array(m + n - 1).fill(0)` and run `result[i+j] += poly1[i] * poly2[j]`
over all `0 ≤ i < m`, `0 ≤ j < n` in source order, each `*` and `+=`
being a JS double operation. -/
def multiplyLoop (poly1 poly2 : List Int) : List Int :=
  (List.range poly1.length).foldl
    (fun result i =>
      (List.range poly2.length).foldl
        (fun result j =>
          result.set (i + j)
            (jsAdd (result.getD (i + j) 0) (jsMul (poly1.getD i 0) (poly2.getD j 0))))
        result)
    (List.replicate (poly1.length + poly2.length - 1) 0)

/-- Function `multiplyPolynomials` from src/polynomialSolver.js. When
both inputs are empty, `new Array(-1)` throws a RangeError, modelled as
`none`. -/
def multiplyPolynomials (poly1 poly2 : List Int) : Option (List Int) :=
  if poly1.length + poly2.length = 0 then none
  else some (multiplyLoop poly1 poly2)

/-- Function `buildPolynomial` from src/polynomialSolver.js: reject an
empty root list, then starting from `[1]` multiply by the factor
`[-root, 1]` for each root in order. The throw on an empty root list is
`none`. -/
def buildPolynomial (roots : List Int) : Option (List Int) :=
  if roots.isEmpty then none
  else roots.foldlM (fun polynomial root => multiplyPolynomials polynomial [-root, 1]) [1]

/-- Function `evaluatePolynomial` from src/polynomialSolver.js:
accumulate `result += coefficients[i] * power; power *= x` over the
coefficients, each `*` and `+=` being a JS double operation. -/
def evaluatePolynomial (coefficients : List Int) (x : Int) : Int :=
  (coefficients.foldl (fun acc c => (jsAdd acc.1 (jsMul c acc.2), jsMul acc.2 x))
    ((0 : Int), (1 : Int))).1

/-- The exact rational value of the IEEE-754 double written `1e-10` in
`verifyRoots` (7737125245533627 × 2⁻⁸⁶). -/
def tolerance : ℚ := 7737125245533627 / 2 ^ 86

/-- Function `verifyRoots` from src/polynomialSolver.js: false as soon as
some root evaluates (in double arithmetic) to a value of absolute value
above the tolerance, true otherwise (the console warning is ignored as
display-only). -/
def verifyRoots (coefficients roots : List Int) : Bool :=
  roots.all fun root =>
    decide (|((evaluatePolynomial coefficients root : Int) : ℚ)| ≤ tolerance)

/-! ## Analysis-side definitions -/

/-- One `result[i+j] += poly1[i] * poly2[j]` write of the multiply loop,
indexed by the pair (i, j). -/
def mulStep (poly1 poly2 res : List Int) (u : Nat × Nat) : List Int :=
  res.set (u.1 + u.2)
    (jsAdd (res.getD (u.1 + u.2) 0) (jsMul (poly1.getD u.1 0) (poly2.getD u.2 0)))

/-- All (i, j) index pairs of the two nested loops, in source iteration
order (i outer ascending, j inner ascending). -/
def mulPairs (m n : Nat) : List (Nat × Nat) :=
  (List.range m).flatMap fun i => (List.range n).map fun j => (i, j)

/-- The value the loops leave in entry t: the double-rounded
left-to-right accumulation of the rounded products poly1[i]·poly2[t-i]
over the pairs with i + j = t, in ascending i — the order in which the
source's nested loops visit them. -/
def convEntryJs (p1 p2 : List Int) (t : Nat) : Int :=
  ((List.range p1.length).filter fun i => i ≤ t ∧ t - i < p2.length).foldl
    (fun acc i => jsAdd acc (jsMul (p1.getD i 0) (p2.getD (t - i) 0))) 0

/-- The exact mathematical polynomial denoted by a coefficient list in
ascending order (index i is the coefficient of X^i); used to state what
the double-rounded outputs fail to satisfy. -/
noncomputable def toPoly : List Int → Polynomial ℤ
  | [] => 0
  | c :: l => Polynomial.C c + Polynomial.X * toPoly l

/-! ## Lemmas about the multiply loop -/

/-- Entries of a list after `set`. -/
theorem getD_set (l : List Int) (i k : Nat) (a : Int) :
    (l.set i a).getD k 0 = if i = k ∧ i < l.length then a else l.getD k 0 := by
  induction l generalizing i k with
  | nil => simp
  | cons c t ih =>
    cases i with
    | zero => cases k <;> simp
    | succ i =>
      cases k with
      | zero => simp
      | succ k => simpa [Nat.succ_lt_succ_iff] using ih i k

/-- For non-empty inputs `multiplyPolynomials` succeeds with the loop's
result. -/
theorem multiplyPolynomials_eq_some (p1 p2 : List Int) (h1 : p1 ≠ []) :
    multiplyPolynomials p1 p2 = some (multiplyLoop p1 p2) := by
  have hm : 1 ≤ p1.length := List.length_pos.mpr h1
  rw [multiplyPolynomials, if_neg (by omega)]

/-- Two nested folds are the fold over the flattened pair list. -/
theorem foldl_nested_eq_pairs {α β σ : Type} (l1 : List α) (l2 : List β)
    (g : σ → α × β → σ) :
    ∀ init : σ,
      l1.foldl (fun s a => l2.foldl (fun s b => g s (a, b)) s) init
        = (l1.flatMap fun a => l2.map fun b => (a, b)).foldl g init := by
  induction l1 with
  | nil => intro init; rfl
  | cons a l1 ih =>
    intro init
    rw [List.foldl_cons, List.flatMap_cons, List.foldl_append, List.foldl_map, ih]

/-- The multiply loop is the fold of `mulStep` over the pair list. -/
theorem multiplyLoop_eq_pairs (p1 p2 : List Int) :
    multiplyLoop p1 p2 = (mulPairs p1.length p2.length).foldl (mulStep p1 p2)
      (List.replicate (p1.length + p2.length - 1) 0) :=
  foldl_nested_eq_pairs (List.range p1.length) (List.range p2.length) (mulStep p1 p2) _

/-- Folding `mulStep` never changes the length. -/
theorem foldl_mulStep_length (p1 p2 : List Int) (ups : List (Nat × Nat)) :
    ∀ res : List Int, (ups.foldl (mulStep p1 p2) res).length = res.length := by
  induction ups with
  | nil => intro res; rfl
  | cons u ups ih =>
    intro res
    rw [List.foldl_cons, ih]
    simp [mulStep]

/-- The multiply loop returns a list of length m + n - 1. -/
theorem multiplyLoop_length (p1 p2 : List Int) :
    (multiplyLoop p1 p2).length = p1.length + p2.length - 1 := by
  rw [multiplyLoop_eq_pairs, foldl_mulStep_length]
  simp

/-- Entry t of the `mulStep` fold is the accumulation, in order, of
exactly the steps whose target index is t. -/
theorem foldl_mulStep_getD (p1 p2 : List Int) (t : Nat) (ups : List (Nat × Nat)) :
    ∀ res : List Int, t < res.length →
    (ups.foldl (mulStep p1 p2) res).getD t 0 =
      (ups.filter fun u => u.1 + u.2 = t).foldl
        (fun acc u => jsAdd acc (jsMul (p1.getD u.1 0) (p2.getD u.2 0))) (res.getD t 0) := by
  induction ups with
  | nil => intro res _; rfl
  | cons u ups ih =>
    intro res ht
    have hlen : (mulStep p1 p2 res u).length = res.length := by simp [mulStep]
    rw [List.foldl_cons, ih (mulStep p1 p2 res u) (by rw [hlen]; exact ht),
      List.filter_cons]
    by_cases hu : u.1 + u.2 = t
    · rw [if_pos (by simpa using hu), List.foldl_cons]
      congr 1
      rw [mulStep, getD_set, if_pos ⟨hu, by omega⟩, hu]
    · rw [if_neg (by simpa using hu)]
      congr 1
      rw [mulStep, getD_set, if_neg (by tauto)]

/-- Filtering `List.range` for one value. -/
theorem filter_range_eq (n c : Nat) :
    ((List.range n).filter fun j => j = c) = if c < n then [c] else [] := by
  induction n with
  | zero => simp
  | succ n ih =>
    rw [List.range_succ, List.filter_append, ih]
    by_cases h : n = c
    · subst h
      have h2 : ¬n < n := Nat.lt_irrefl n
      simp [h2]
    · by_cases h2 : c < n
      · have h3 : c < n + 1 := Nat.lt_succ_of_lt h2
        simp [h, h2, h3, Ne.symm h]
      · have h3 : ¬c < n + 1 := by omega
        simp [h, h2, h3, Ne.symm h]

/-- Filtering `List.range` for the indices pairing to target t. -/
theorem filter_range_add_eq (n i t : Nat) :
    ((List.range n).filter fun j => i + j = t)
      = if i ≤ t ∧ t - i < n then [t - i] else [] := by
  have hcongr : ((List.range n).filter fun j => i + j = t)
      = (List.range n).filter fun j => j = t - i ∧ i ≤ t := by
    refine List.filter_congr ?_
    intro j _
    simp only [decide_eq_decide]
    omega
  rw [hcongr]
  by_cases hit : i ≤ t
  · have hcongr2 : ((List.range n).filter fun j => j = t - i ∧ i ≤ t)
        = (List.range n).filter fun j => j = t - i := by
      refine List.filter_congr ?_
      intro j _
      simp only [decide_eq_decide]
      tauto
    rw [hcongr2, filter_range_eq]
    by_cases hlt : t - i < n
    · simp [hlt, hit]
    · simp [hlt, hit]
  · have hcongr2 : ((List.range n).filter fun j => j = t - i ∧ i ≤ t)
        = (List.range n).filter fun _ => False := by
      refine List.filter_congr ?_
      intro j _
      simp only [decide_eq_decide]
      tauto
    rw [hcongr2]
    simp [hit]

/-- The pairs targeting entry t are exactly (i, t - i) for the valid i,
in ascending i order. -/
theorem pairs_filter_eq (n t : Nat) :
    ∀ m : Nat, ((mulPairs m n).filter fun u => u.1 + u.2 = t)
      = (((List.range m).filter fun i => i ≤ t ∧ t - i < n).map fun i => (i, t - i)) := by
  intro m
  induction m with
  | zero => rfl
  | succ m ih =>
    rw [mulPairs, List.range_succ, List.flatMap_append, List.filter_append,
      show ((List.range m).flatMap fun i => (List.range n).map fun j => (i, j))
        = mulPairs m n from rfl, ih, List.filter_append, List.map_append]
    congr 1
    have hsingle : (([m] : List Nat).flatMap fun i => (List.range n).map fun j => (i, j))
        = (List.range n).map fun j => (m, j) := by simp
    rw [hsingle, List.filter_map]
    have hcomp : ((fun u : Nat × Nat => decide (u.1 + u.2 = t)) ∘ fun j => (m, j))
        = fun j => decide (m + j = t) := rfl
    rw [hcomp, filter_range_add_eq]
    by_cases hP : m ≤ t ∧ t - m < n
    · rw [if_pos hP]
      simp [hP]
    · rw [if_neg hP]
      simp [hP]

/-- Entry t of the multiply loop is the in-order double-rounded
convolution accumulation. -/
theorem multiplyLoop_getD (p1 p2 : List Int) (t : Nat)
    (ht : t < p1.length + p2.length - 1) :
    (multiplyLoop p1 p2).getD t 0 = convEntryJs p1 p2 t := by
  rw [multiplyLoop_eq_pairs,
    foldl_mulStep_getD p1 p2 t (mulPairs p1.length p2.length)
      (List.replicate (p1.length + p2.length - 1) 0) (by simpa using ht),
    pairs_filter_eq, List.foldl_map, convEntryJs]
  congr 1
  simp [List.getD_eq_getElem?_getD, List.getElem?_replicate, ht]

/-- The top entry of a multiplication by the factor [-r, 1] receives the
single write `0 += p[m-1] * 1`. -/
theorem multiplyLoop_factor_last (p : List Int) (r : Int) (hp : p ≠ []) :
    (multiplyLoop p [-r, 1]).getD p.length 0
      = jsAdd 0 (jsMul (p.getD (p.length - 1) 0) 1) := by
  have hm : 1 ≤ p.length := List.length_pos.mpr hp
  rw [multiplyLoop_getD p [-r, 1] p.length (by simp), convEntryJs]
  have hfilter : ((List.range p.length).filter
      fun i => i ≤ p.length ∧ p.length - i < ([-r, 1] : List Int).length)
      = [p.length - 1] := by
    have hcongr : ((List.range p.length).filter
        fun i => i ≤ p.length ∧ p.length - i < ([-r, 1] : List Int).length)
        = (List.range p.length).filter fun i => i = p.length - 1 := by
      refine List.filter_congr ?_
      intro i hi
      have : i < p.length := List.mem_range.mp hi
      simp only [List.length_cons, List.length_nil, decide_eq_decide]
      omega
    rw [hcongr, filter_range_eq, if_pos (by omega)]
  rw [hfilter, List.foldl_cons, List.foldl_nil]
  have hidx : p.length - (p.length - 1) = 1 := by omega
  rw [hidx]
  rfl

/-- Relation between `getLast?` and the entry at the last index. -/
theorem getLast?_eq_getD (l : List Int) (h : l ≠ []) :
    l.getLast? = some (l.getD (l.length - 1) 0) := by
  have hpos : 0 < l.length := List.length_pos.mpr h
  rw [List.getLast?_eq_getLast_of_ne_nil h, List.getLast_eq_getElem]
  congr 1
  exact (List.getD_eq_getElem l 0 (by omega)).symm

/-- The fold at the heart of `buildPolynomial`: starting from any
non-empty accumulator with last entry 1, folding the roots grows the
length by one per root and keeps the last entry exactly 1 (the top
writes only ever multiply and add exact small values). -/
theorem build_foldlM_length_last (rs : List Int) :
    ∀ p : List Int, p ≠ [] → p.getLast? = some 1 →
    ∃ q, List.foldlM (fun polynomial root => multiplyPolynomials polynomial [-root, 1]) p rs
        = some q ∧
      q.length = p.length + rs.length ∧ q.getLast? = some 1 := by
  induction rs with
  | nil => intro p hp hl; exact ⟨p, by simp, by simp, hl⟩
  | cons r rs ih =>
    intro p hp hl
    have hplen : 1 ≤ p.length := List.length_pos.mpr hp
    have hlen' : (multiplyLoop p [-r, 1]).length = p.length + 1 := by
      rw [multiplyLoop_length]
      simp
    have hne' : multiplyLoop p [-r, 1] ≠ [] := by
      intro hc
      rw [hc] at hlen'
      simp at hlen'
    have hgl : p.getD (p.length - 1) 0 = 1 := by
      have h1 := getLast?_eq_getD p hp
      rw [hl] at h1
      exact (Option.some.inj h1).symm
    have hlast' : (multiplyLoop p [-r, 1]).getLast? = some 1 := by
      rw [getLast?_eq_getD _ hne', hlen', Nat.add_sub_cancel,
        multiplyLoop_factor_last p r hp, hgl]
      decide
    obtain ⟨q, hq, hqlen, hqlast⟩ := ih (multiplyLoop p [-r, 1]) hne' hlast'
    refine ⟨q, ?_, ?_, hqlast⟩
    · rw [List.foldlM_cons, multiplyPolynomials_eq_some p [-r, 1] hp]
      simpa using hq
    · rw [hqlen, hlen', List.length_cons]
      omega

/-- Rounding to double commutes with negation. -/
theorem roundToDouble_neg (r : Int) : roundToDouble (-r) = -roundToDouble r := by
  rcases lt_trichotomy r 0 with h | h | h
  · simp only [roundToDouble, Int.natAbs_neg]
    rw [if_neg (show ¬(-r < 0) by omega), if_pos (show r < 0 from h), neg_neg]
  · subst h
    decide
  · simp only [roundToDouble, Int.natAbs_neg]
    rw [if_pos (show -r < 0 by omega), if_neg (show ¬(r < 0) by omega)]

/-! ## Claim theorems -/

/-- Claim C1, counterexample: `buildPolynomial [4, 7, 12]` does not return
the spec's coefficient sequence `[336, -172, 23, -1]`. -/
theorem buildPolynomial_c1_counterexample :
    buildPolynomial [4, 7, 12] ≠ some [336, -172, 23, -1] := by decide

/-- Claim C1, amended: for the root list [4, 7, 12], `buildPolynomial`
returns `[-336, 160, -23, 1]` in ascending order, the expansion of
`(x-4)(x-7)(x-12)` (every double operation is exact at these
magnitudes), whose top coefficient is 1 (monic), not -1. -/
theorem buildPolynomial_four_seven_twelve :
    buildPolynomial [4, 7, 12] = some [-336, 160, -23, 1] := by decide

open Polynomial in
/-- Claim C2, counterexample: for roots [2^30 + 1, 2^30 - 1] the code
rounds the constant term to 2^60 (the exact product 2^60 - 1 is not a
representable double), so the returned sequence does not denote the
monic polynomial whose roots are the input multiset. -/
theorem buildPolynomial_c2_counterexample :
    buildPolynomial [1073741825, 1073741823]
        = some [1152921504606846976, -2147483648, 1] ∧
      toPoly [1152921504606846976, -2147483648, 1] ≠
        ((([1073741825, 1073741823] : List Int).map fun r => X - C r).prod) := by
  refine ⟨by decide, ?_⟩
  intro hcon
  have h0 := congrArg (Polynomial.eval 0) hcon
  simp [toPoly] at h0

/-- Claim C2, amended: for every non-empty root list, `buildPolynomial`
succeeds with a sequence of length `roots.length + 1` whose last element
is exactly 1; because the coefficients are accumulated in double
arithmetic they do not in general denote the exact monic product of the
root factors (see the counterexample). -/
theorem buildPolynomial_length_monic (roots : List Int) (h : roots ≠ []) :
    ∃ coeffs, buildPolynomial roots = some coeffs ∧
      coeffs.length = roots.length + 1 ∧
      coeffs.getLast? = some 1 := by
  obtain ⟨q, hq, hqlen, hqlast⟩ := build_foldlM_length_last roots [1] (by simp) rfl
  refine ⟨q, ?_, ?_, hqlast⟩
  · rw [buildPolynomial, if_neg (by simpa using h)]
    exact hq
  · rw [hqlen]
    simp [Nat.add_comm]

/-- Witness for C2 at the concrete root list [5]. -/
theorem buildPolynomial_length_monic_witness :
    ∃ coeffs, buildPolynomial [5] = some coeffs ∧
      coeffs.length = ([5] : List Int).length + 1 ∧
      coeffs.getLast? = some 1 :=
  buildPolynomial_length_monic [5] (by decide)

/-- Claim C3: permutation invariance fails in the code's double
arithmetic. The two root lists below are permutations of each other, yet
the rounding of the constant-term products depends on the multiplication
order, so the coefficient sequences differ. -/
theorem buildPolynomial_not_perm_invariant :
    ([3, 3002399751580331, 5] : List Int).Perm [5, 3002399751580331, 3] ∧
      buildPolynomial [3, 3002399751580331, 5]
        ≠ buildPolynomial [5, 3002399751580331, 3] := by decide

/-- Claim C4: evaluating the built polynomial at an input root does not
always yield exactly 0 in the code. For the roots below, the stored
coefficients are rounded and the double-arithmetic evaluation at the
root 3 returns 15. -/
theorem buildPolynomial_root_eval_nonzero :
    buildPolynomial [3, 3002399751580331, 5]
        = some [-45035996273704960, 24019198012642664, -3002399751580339, 1] ∧
      evaluatePolynomial [-45035996273704960, 24019198012642664, -3002399751580339, 1] 3
        ≠ 0 := by decide

/-- Claim C9: for a single root r that is a representable double (every
value the JS program can hold is), the built polynomial is exactly
`[-r, 1]`: the computation `[0 + 1 * (-r), 0 + 1 * 1]` rounds nothing. -/
theorem buildPolynomial_singleton (r : Int) (hr : roundToDouble r = r) :
    buildPolynomial [r] = some [-r, 1] := by
  show some [jsAdd 0 (jsMul 1 (-r)), jsAdd 0 (jsMul 1 1)] = some [-r, 1]
  have h1 : jsAdd 0 (jsMul 1 1) = 1 := by decide
  have h2 : jsAdd 0 (jsMul 1 (-r)) = -r := by
    rw [jsMul, one_mul, roundToDouble_neg, hr, jsAdd, zero_add, roundToDouble_neg, hr]
  rw [h1, h2]

/-- Witness for C9 at the concrete root 5. -/
theorem buildPolynomial_singleton_witness :
    buildPolynomial [5] = some [-5, 1] :=
  buildPolynomial_singleton 5 (by decide)

/-- Claim C10, counterexample: the entry of the product is not the exact
convolution sum: for [2^30 + 1] and [2^30 - 1] the code stores the
rounded product 2^60, not the exact 2^60 - 1. -/
theorem multiplyPolynomials_c10_counterexample :
    multiplyPolynomials [1073741825] [1073741823] = some [1152921504606846976] ∧
      (1152921504606846976 : Int) ≠ 1073741825 * 1073741823 := by decide

/-- Claim C10, amended: `multiplyPolynomials` fails (JS throws on
`new Array(-1)`) exactly at the both-empty boundary, and on non-empty
inputs of lengths m and n it returns a list of length m + n - 1 whose
entry t is the double-rounded left-to-right accumulation of the rounded
products over all index pairs summing to t, in the loops' order. -/
theorem multiplyPolynomials_spec :
    multiplyPolynomials [] [] = none ∧
    ∀ (p1 p2 : List Int), p1 ≠ [] → p2 ≠ [] →
      ∃ l, multiplyPolynomials p1 p2 = some l ∧
        l.length = p1.length + p2.length - 1 ∧
        ∀ t, t < l.length → l.getD t 0 = convEntryJs p1 p2 t := by
  refine ⟨rfl, ?_⟩
  intro p1 p2 h1 h2
  refine ⟨multiplyLoop p1 p2, multiplyPolynomials_eq_some p1 p2 h1,
    multiplyLoop_length p1 p2, ?_⟩
  intro t ht
  rw [multiplyLoop_length] at ht
  exact multiplyLoop_getD p1 p2 t ht

/-- Witness for C10 at the concrete inputs [2, 5] and [3, 4]. -/
theorem multiplyPolynomials_spec_witness :
    ∃ l, multiplyPolynomials [2, 5] [3, 4] = some l ∧
      l.length = ([2, 5] : List Int).length + ([3, 4] : List Int).length - 1 ∧
      ∀ t, t < l.length → l.getD t 0 = convEntryJs [2, 5] [3, 4] t :=
  multiplyPolynomials_spec.2 [2, 5] [3, 4] (by decide) (by decide)

/-- Claim C5, counterexample: `convertToDecimal "1g" 16` returns the
value 1 parsed from the legal prefix `"1"`, although 'g' is not a legal
base-16 digit — it does not fail with `InvalidDigitString`. -/
theorem convertToDecimal_prefix_counterexample :
    convertToDecimal "1g" 16 = .ok 1 ∧ isRadixDigit 16 'g' = false :=
  ⟨rfl, rfl⟩

/-- Claim C5, amended: for a base in [2,16], `convertToDecimal` fails
with `InvalidDigitString` iff the value is empty, or after `parseInt`'s
front end (whitespace trim, optional sign, optional 0x for base 16) no
legal digit of the base comes first; a string with a legal digit prefix
followed by illegal characters is parsed from the prefix instead. -/
theorem convertToDecimal_invalidDigit_iff (value : String) (base : Int)
    (h2 : 2 ≤ base) (h16 : base ≤ 16) :
    convertToDecimal value base = .error .invalidDigitString ↔
      (value.data = [] ∨ noLeadingDigit base value.data = true) := by
  rw [convertToDecimal, if_neg (by omega)]
  by_cases he : value.data.isEmpty
  · rw [if_pos he]
    simp [List.isEmpty_iff.mp he]
  · rw [if_neg he]
    have hne : value.data ≠ [] := by simpa [List.isEmpty_iff] using he
    rcases hfront : strip0x base (splitSign (value.data.dropWhile isJsWhitespace)).2 with
      _ | ⟨c, rest⟩
    · simp [jsParseInt, noLeadingDigit, hfront, hne]
    · by_cases hd : isRadixDigit base c
      · simp [jsParseInt, noLeadingDigit, hfront, hd, hne, List.takeWhile_cons]
      · simp [jsParseInt, noLeadingDigit, hfront, hd, hne, List.takeWhile_cons]

/-- Witness for the amended C5: the value "g" in base 16 fails with
`InvalidDigitString`. -/
theorem convertToDecimal_invalidDigit_witness :
    convertToDecimal "g" 16 = .error .invalidDigitString :=
  (convertToDecimal_invalidDigit_iff "g" 16 (by norm_num) (by norm_num)).mpr
    (Or.inr rfl)

/-- Claim C6: at the failing input "18014398509481985" (2^54 + 1) in base
10, `convertToDecimal` returns 18014398509481984, the nearest IEEE-754
double, not the exact value of the digit string. -/
theorem convertToDecimal_precision_loss :
    convertToDecimal "18014398509481985" 10 = .ok 18014398509481984 ∧
      (18014398509481984 : Int) ≠ 18014398509481985 :=
  ⟨rfl, by decide⟩

/-- Claim C8: `convertToDecimal` fails with `InvalidBase` exactly when
the base is outside [2,16]; in particular every value fails in base 17. -/
theorem convertToDecimal_invalidBase_iff (value : String) (base : Int) :
    convertToDecimal value base = .error .invalidBase ↔ (base < 2 ∨ 16 < base) := by
  rw [convertToDecimal]
  by_cases hb : base < 2 ∨ 16 < base
  · simp [hb]
  · rw [if_neg hb]
    simp only [hb, iff_false]
    split
    · simp
    · split <;> simp

/-- The tolerance test of `verifyRoots` admits no nonzero integer-valued
double, so the function is true exactly when the double evaluation of
every root is zero. -/
theorem verifyRoots_eq_true_iff (coefficients roots : List Int) :
    verifyRoots coefficients roots = true ↔
      ∀ r ∈ roots, evaluatePolynomial coefficients r = 0 := by
  have htol1 : tolerance < 1 := by norm_num [tolerance]
  have htol0 : 0 ≤ tolerance := by norm_num [tolerance]
  have key : ∀ v : Int, (|((v : Int) : ℚ)| ≤ tolerance ↔ v = 0) := by
    intro v
    constructor
    · intro hv
      by_contra h0
      have h1 : (1 : ℤ) ≤ |v| := Int.one_le_abs h0
      have h2 : (1 : ℚ) ≤ |((v : Int) : ℚ)| := by
        rw [← Int.cast_abs]
        exact_mod_cast h1
      linarith
    · rintro rfl
      simpa using htol0
  rw [verifyRoots, List.all_eq_true]
  constructor
  · intro h r hr
    exact (key _).mp (by simpa using h r hr)
  · intro h r hr
    simpa using (key _).mpr (h r hr)

open Polynomial in
/-- Claim C7, counterexample: for the coefficients [1, 2^53, -2^53] and
the root 1, the code's double evaluation cancels to exactly 0 (1 + 2^53
rounds to 2^53), so `verifyRoots` returns true although the exact
mathematical evaluation of those coefficients at 1 is 1, not 0. -/
theorem verifyRoots_c7_counterexample :
    verifyRoots [1, 9007199254740992, -9007199254740992] [1] = true ∧
      Polynomial.eval (1 : ℤ) (toPoly [1, 9007199254740992, -9007199254740992]) ≠ 0 := by
  constructor
  · rw [verifyRoots_eq_true_iff]
    intro r hr
    rw [show r = 1 by simpa using hr]
    decide
  · simp [toPoly]

/-- Claim C7, amended: `verifyRoots` returns true iff the code's own
double-rounded evaluation of the polynomial at every root is exactly
zero; over integer-valued doubles the 1e-10 tolerance admits no nonzero
value, so the comparison is equivalent to exact equality with zero — but
the evaluation it applies to is the rounded one, not the exact one. -/
theorem verifyRoots_iff_eval_zero (coefficients roots : List Int) :
    verifyRoots coefficients roots = true ↔
      ∀ r ∈ roots, evaluatePolynomial coefficients r = 0 :=
  verifyRoots_eq_true_iff coefficients roots

end Hashira
